import Mathlib

/-!
Verification of the `accountant` repository's core pipeline
(normalize → merge → categorize) against its natural-language specification.

The Python code is shallowly embedded:
* text values (pandas object cells) are `List Char`; Python's `str.upper`
  is `Char.toUpper` mapped over the characters (the data is ASCII);
* `datetime64[ns]` values are modelled as integers (nanosecond ticks);
  only their ordering and equality matter to the code under study;
* `float` amounts are modelled as integers (see the cache section for why
  this is faithful for the claims studied);
* a pandas DataFrame of transaction rows is a `List Record`
  (resp. `List MRecord` after the three categorization columns are added);
  row order is list order, which is what `reset_index` renumbers;
* raising an exception is returning `Except.error`.
-/

/-- Raised-or-returned results can be compared by computation. -/
instance {ε α : Type} [DecidableEq ε] [DecidableEq α] : DecidableEq (Except ε α) := fun x y =>
  match x, y with
  | Except.error e, Except.error f => decidable_of_iff (e = f) (by simp)
  | Except.error _, Except.ok _ => isFalse (by simp)
  | Except.ok _, Except.error _ => isFalse (by simp)
  | Except.ok a, Except.ok b => decidable_of_iff (a = b) (by simp)

/-- Text cells of the pandas tables: a Python `str` as its character list. -/
abbrev Str := List Char

/-- Python `s.upper()` (`pandas.Series.str.upper`) on ASCII data. -/
def upperStr (s : Str) : Str := s.map Char.toUpper

/-- Python `needle in hay` / `pandas.Series.str.contains(needle, regex=False)`:
literal substring test. -/
def substrB (needle : Str) : Str → Bool
  | [] => needle.isEmpty
  | c :: t => needle.isPrefixOf (c :: t) || substrB needle t

/-- One step of Python `re` matching for the patterns the merger uses
(literal characters plus the `.` metacharacter): does `pat` match a prefix
of `s`?  `.` matches any character except a newline. -/
def patAt : Str → Str → Bool
  | [], _ => true
  | _ :: _, [] => false
  | p :: ps, c :: cs => (if p = '.' then decide (c ≠ '\n') else decide (p = c)) && patAt ps cs

/-- Python `re.search` as used by `pandas.Series.str.contains(pat)` with the
default `regex=True`: does `pat` match anywhere inside `s`? -/
def patSearch (pat : Str) : Str → Bool
  | [] => pat.isEmpty
  | c :: cs => patAt pat (c :: cs) || patSearch pat cs

/-- Relation between a pattern character and a subject character under the
`re` fragment used here: `.` matches anything but a newline, every other
character only itself. -/
def CharMatch (p c : Char) : Prop := if p = '.' then c ≠ '\n' else p = c

/-- Declarative reading of `patSearch`: some decomposition of the subject has
a middle segment matched character-by-character by the pattern. -/
def PatOccurs (pat s : Str) : Prop :=
  ∃ pre mid suf, s = pre ++ mid ++ suf ∧ List.Forall₂ CharMatch pat mid

/-- One transaction row of the canonical schema
(`TransactionFile.COLUMN_TYPE_CHECKS` in `transaction_file.py`):
Datetime, Source, Official Name, Amount, Alt Source, Alt Source Official
Name.  The two alternate-source columns are nullable. -/
structure Record where
  datetime : Int
  source : Str
  officialName : Str
  amount : Int
  altSource : Option Str
  altSourceOfficialName : Option Str
deriving DecidableEq

/-- One row of a `MergedTransactionFile`: a canonical row plus the three
nullable categorization columns. -/
structure MRecord where
  record : Record
  category : Option Str
  supercategory : Option Str
  group : Option Str
deriving DecidableEq

/-- The merged row `Merger.merge` creates: the canonical row with the three
categorization columns set to `None`. -/
def toMRecord (r : Record) : MRecord := ⟨r, none, none, none⟩

/-- The part of a `Specification` the merger consumes: the inclusive
reporting window `[date_start, date_end]`. -/
structure MSpec where
  dateStart : Int
  dateEnd : Int

/-- Insert one row into a list so that rows with a strictly smaller
`Datetime` stay in front and the new row lands before every row of equal
`Datetime` that was behind it in the original order. -/
def insertDt (r : Record) : List Record → List Record
  | [] => [r]
  | x :: xs => if r.datetime ≤ x.datetime then r :: x :: xs else x :: insertDt r xs

/-- The stable sort by `Datetime` performed by
`sort_values(by=["Datetime"], kind='mergesort')` in `Merger.merge`.
Insertion sort is used as the model: it is stable, and any two stable sorts
by the same key agree extensionally. -/
def sortDt : List Record → List Record
  | [] => []
  | x :: xs => insertDt x (sortDt xs)

/-- `"GENERAL ELECTRIC REG.SALARY"` — note the `.`, a regex wildcard under
the default `regex=True` of `str.contains`. -/
def gePat : Str := "GENERAL ELECTRIC REG.SALARY".data

/-- `"GE HEALTHCARE TE REG.SALARY"` — note the `.`, a regex wildcard under
the default `regex=True` of `str.contains`. -/
def gehcPat : Str := "GE HEALTHCARE TE REG.SALARY".data

/-- `"VENMO PAYMENT"` (contains no regex metacharacter). -/
def venmoPat : Str := "VENMO PAYMENT".data

/-- `"WF Checking"`, the redundant-prone source tag. -/
def wfCheckingPat : Str := "WF Checking".data

/-- The `redundant` mask of `Merger._consolidate_redundant`: the row comes
from a source containing `"WF Checking"` and its Official Name matches one
of the payroll patterns or the Venmo pattern (all via `str.contains` with
the default `regex=True`). -/
def redundantB (r : Record) : Bool :=
  patSearch wfCheckingPat r.source &&
    (patSearch gePat r.officialName || patSearch gehcPat r.officialName ||
      patSearch venmoPat r.officialName)

/-- `Merger._consolidate_redundant`: keep exactly the rows whose `redundant`
mask is false (`record.loc[~redundant]`). -/
def consolidateRedundant (record : List Record) : List Record :=
  record.filter (fun r => ! redundantB r)

/-- The date-window mask of `Merger.merge`:
`(date_start <= Datetime) & (Datetime <= date_end)`. -/
def inWindowB (sp : MSpec) (r : Record) : Bool :=
  decide (sp.dateStart ≤ r.datetime) && decide (r.datetime ≤ sp.dateEnd)

/-- The window-filter step of `Merger.merge`:
`merged_record[(date_start <= Datetime) & (Datetime <= date_end)]`. -/
def windowFilter (sp : MSpec) (l : List Record) : List Record :=
  l.filter (inWindowB sp)

/-- `Merger.merge`: concatenate the input tables (`pd.concat` raises
`ValueError: No objects to concatenate` on an empty list), stable-sort by
`Datetime`, drop the redundant rows, clip to the reporting window, and
append the three categorization columns initialized to `None`. -/
def merge (sp : MSpec) (transactionFiles : List (List Record)) :
    Except String (List MRecord) :=
  if transactionFiles.isEmpty then
    Except.error "No objects to concatenate"
  else
    let concatenated := transactionFiles.flatten
    let sorted := sortDt concatenated
    let consolidated := consolidateRedundant sorted
    let windowed := windowFilter sp consolidated
    Except.ok (windowed.map toMRecord)

/-- The categorization rules and taxonomy maps a `Categorization` object
carries (`spec.py`): the two ordered rule mappings and the two inverted
taxonomy maps.  Python dicts preserve insertion order, so each mapping is
an ordered association list. -/
structure Categorization where
  exactCategorizers : List (Str × List Str)
  keywordCategorizers : List (Str × List Str)
  categorySupers : List (Str × Str)
  categoryGroups : List (Str × Str)

/-- The keyword pass of `Categorizer.categorize`: for each category in rule
order, for each keyword in list order, set `Category` on every row whose
upper-cased Official Name contains the keyword *as written*
(`df["Official Name"].str.upper().str.contains(keyword, regex=False)` —
only the Official Name is upper-cased, never the keyword). -/
def keywordPass (rules : List (Str × List Str)) (rs : List MRecord) : List MRecord :=
  rules.foldl
    (fun rs p =>
      p.2.foldl
        (fun rs kw =>
          rs.map (fun r =>
            if substrB kw (upperStr r.record.officialName) then { r with category := some p.1 }
            else r))
        rs)
    rs

/-- The exact-match pass of `Categorizer.categorize`: for each category in
rule order, for each string in list order, set `Category` on every row whose
Official Name equals the string exactly (`df["Official Name"] == exactmatch`). -/
def exactPass (rules : List (Str × List Str)) (rs : List MRecord) : List MRecord :=
  rules.foldl
    (fun rs p =>
      p.2.foldl
        (fun rs s =>
          rs.map (fun r =>
            if r.record.officialName = s then { r with category := some p.1 }
            else r))
        rs)
    rs

/-- The taxonomy-mapping step of `Categorizer.categorize`:
`df["Supercategory"] = df["Category"].map(category_supers)` and likewise for
`Group`; a null category (or one missing from the map) maps to null. -/
def mapTaxonomy (supers groups : List (Str × Str)) (rs : List MRecord) : List MRecord :=
  rs.map (fun r =>
    { r with
      supercategory := r.category.bind (fun c => supers.lookup c)
      group := r.category.bind (fun c => groups.lookup c) })

/-- `Categorizer.categorize`: keyword pass, then exact pass, then the
taxonomy maps, then the two consistency checks
(`df["Category"].isna() ^ df["Supercategory"].isna()` must be nowhere true,
and likewise for `Group`), each raising `AssertionError` if violated. -/
def categorize (c : Categorization) (rs : List MRecord) :
    Except String (List MRecord) :=
  let rs1 := keywordPass c.keywordCategorizers rs
  let rs2 := exactPass c.exactCategorizers rs1
  let rs3 := mapTaxonomy c.categorySupers c.categoryGroups rs2
  if rs3.any (fun r => r.category.isNone != r.supercategory.isNone) then
    Except.error "One of the provided categorizers is using an invalid Category label; offending entries are above"
  else if rs3.any (fun r => r.category.isNone != r.group.isNone) then
    Except.error "One of the provided categorizers is using an invalid Category label"
  else
    Except.ok rs3

/-- The per-row result of the keyword pass: the category of the last rule
(in rule order, then keyword-list order) whose keyword occurs verbatim in
the upper-cased Official Name, if any. -/
def lastKeywordCat (rules : List (Str × List Str)) (name : Str) : Option Str :=
  rules.foldl
    (fun acc p =>
      if p.2.any (fun kw => substrB kw (upperStr name)) then some p.1 else acc)
    none

/-- The per-row result of the exact pass: the category of the last rule (in
rule order, then list order) one of whose strings equals the Official Name,
if any. -/
def lastExactCat (rules : List (Str × List Str)) (name : Str) : Option Str :=
  rules.foldl
    (fun acc p =>
      if p.2.any (fun s => decide (name = s)) then some p.1 else acc)
    none

/-- The numeric value of a digit character (`'0'` ↦ 0, …, `'9'` ↦ 9). -/
def chDigit (c : Char) : Nat := c.toNat - 48

/-- Is every character of the string a decimal digit? -/
def allDigits (s : Str) : Bool := s.all Char.isDigit

/-- The value of a digit string read left to right in base 10. -/
def valDigits (s : Str) : Nat := s.foldl (fun a c => a * 10 + chDigit c) 0

/-- Python `int(s)` on the fragment exercised here: an optional sign
followed by one or more decimal digits.  (Python also strips surrounding
whitespace and allows underscore grouping; neither occurs in the data
studied.) -/
def pyInt (s : Str) : Option Int :=
  if s.head? = some '-' then
    if ! s.tail.isEmpty && allDigits s.tail then some (-(valDigits s.tail : Int)) else none
  else if s.head? = some '+' then
    if ! s.tail.isEmpty && allDigits s.tail then some ((valDigits s.tail : Int)) else none
  else
    if ! s.isEmpty && allDigits s then some ((valDigits s : Int)) else none

/-- The two ways `TransactionFileDescriptor.__init__` can raise instead of
returning: a `ValueError` (bad path shape, or `int(year_str)` failing) or
the intentional-skip signal `IgnoreTransactionFileException`. -/
inductive TfdSignal where
  | valueError
  | ignoreFile
deriving DecidableEq

/-- The successfully constructed descriptor: the relative path (as its list
of segments, the last one being the file name), the parsed year and the
type tag. -/
structure TransactionFileDescriptor where
  relpath : List Str
  year : Int
  transactionFileType : Str
deriving DecidableEq

/-- `TransactionFileDescriptor.__init__`, with a path given as its list of
segments (`relpath.parts`; `relpath.parent.parts` is all but the last).
In source order: fewer than two parent segments raises `ValueError`;
then `int(relpath.parts[0])` raises `ValueError` when the year does not
parse; only then is the `"IGNORE"` sentinel checked and
`IgnoreTransactionFileException` raised. -/
def tfdInit (relpath : List Str) : Except TfdSignal TransactionFileDescriptor :=
  if relpath.dropLast.length < 2 then
    Except.error TfdSignal.valueError
  else
    match pyInt (relpath.getD 0 []) with
    | none => Except.error TfdSignal.valueError
    | some year =>
      if relpath.getD 1 [] = "IGNORE".data then
        Except.error TfdSignal.ignoreFile
      else
        Except.ok ⟨relpath, year, relpath.getD 1 []⟩

/-!
The normalization cache (`Normalizer.normalize` / `Normalizer.read_from_cache`).

A cache artifact is `table.to_csv(path, index=False)` and is read back with
`pd.read_csv(path, header=0, parse_dates=[0], dtype={'Alt Source': str,
'Alt Source Official Name': str})`, after which the result is passed to the
`TransactionFile` constructor, i.e. schema-validated.

The CSV layer is modelled as a list of rows of cells (pandas quoting and
unquoting of text cells is lossless, so the escaping layer is abstracted
away; the header row carries no row data and is implicit in the fixed
column positions).  What *is* modelled — because it is where round-tripping
genuinely can fail — is the value layer:

* `to_csv` writes a missing value as an empty cell and a float as
  `str(float)`; a float holding an integral value prints as `"<n>.0"`.
  Amounts are modelled as integers, which is faithful here because
  `str(float)` is the shortest repr and `read_csv` recovers the exact same
  double, so the float column round-trips value-wise exactly like the
  integer model does.
* `read_csv` infers each column's dtype from the cell texts: a column whose
  cells (ignoring NA sentinels) all look numeric — integers, decimals,
  exponent forms such as `"1e5"`, infinities, each allowing surrounding
  whitespace — becomes `int64`/`float64`, and one whose cells are all
  boolean tokens (`"True"`/`"false"`/…) is parsed as booleans; neither
  stays `object` with string cells.  An NA-sentinel cell (empty string,
  `"NA"`, `"NaN"`, …) becomes missing.  The `dtype=str` override applies
  only to the two alternate-source columns, and `parse_dates=[0]` only to
  `Datetime`.
* the subsequent `TransactionFile` validation checks each column's dtype
  (`is_datetime64_ns_dtype`, `is_object_dtype`, `is_float_dtype`), raising
  `SchemaMismatchException` on any mismatch.

Numeric shapes outside the modelled fragment (exponent notation and
fractional values, which the integer-amount writer never produces) are
reported as errors by the model reader.
-/

/-- Is the table nondecreasing in `Datetime` from row to row? -/
def isSortedDt : List Record → Bool
  | [] => true
  | [_] => true
  | x :: y :: t => decide (x.datetime ≤ y.datetime) && isSortedDt (y :: t)

/-- The drop condition as Claim C5 words it, following the specification:
the record originates from the redundant-prone source and its description
matches one of the fixed payroll or peer-payment *substrings* — i.e.
literal substring containment, with no regex interpretation. -/
def specDropCond (r : Record) : Bool :=
  substrB wfCheckingPat r.source &&
    (substrB gePat r.officialName || substrB gehcPat r.officialName ||
      substrB venmoPat r.officialName)

/-- Case-folded containment as Claim C3 words it: the keyword occurs in the
official name when both are compared case-insensitively. -/
def specCaseFoldContains (kw name : Str) : Bool :=
  substrB (upperStr kw) (upperStr name)

/-! Concrete fixtures used by the per-claim witnesses and counterexamples. -/

/-- A taxonomy-consistent rule set: one keyword rule whose category has a
supercategory and a group. -/
def catC1 : Categorization :=
  ⟨[], [("Coffee".data, ["STARBUCKS".data])],
    [("Coffee".data, "Food".data)], [("Coffee".data, "LIVING".data)]⟩

/-- The same keyword rule with an empty taxonomy: its category has no
supercategory and no group. -/
def catC1bad : Categorization :=
  ⟨[], [("Coffee".data, ["STARBUCKS".data])], [], []⟩

/-- A transaction matching the `"STARBUCKS"` keyword rule. -/
def recC1 : Record := ⟨1, "WF Checking".data, "Starbucks #123".data, -6, none, none⟩

/-- `recC1` as an uncategorized merged row. -/
def rowC1 : MRecord := ⟨recC1, none, none, none⟩

/-- What `categorize catC1 [rowC1]` returns. -/
def outC1 : MRecord := ⟨recC1, some "Coffee".data, some "Food".data, some "LIVING".data⟩

/-- The bad run's intermediate row: category set, supercategory and group
unresolved. -/
def outC1bad : MRecord := ⟨recC1, some "Coffee".data, none, none⟩

/-- Rules where a keyword rule (category `Coffee`) and an exact-match rule
(category `Dining`) both hit the same official name. -/
def catC2 : Categorization :=
  ⟨[("Dining".data, ["Starbucks #123".data])],
    [("Coffee".data, ["STARB".data])],
    [("Dining".data, "Food".data), ("Coffee".data, "Food".data)],
    [("Dining".data, "LIVING".data), ("Coffee".data, "LIVING".data)]⟩

/-- A transaction matching both rules of `catC2`. -/
def recC2 : Record := ⟨1, "S".data, "Starbucks #123".data, 0, none, none⟩

/-- `recC2` as an uncategorized merged row. -/
def rowC2 : MRecord := ⟨recC2, none, none, none⟩

/-- What `categorize catC2 [rowC2]` returns: the exact-match category wins. -/
def outC2 : List MRecord :=
  [⟨recC2, some "Dining".data, some "Food".data, some "LIVING".data⟩]

/-- A keyword rule written in lower case. -/
def kwC3low : List (Str × List Str) := [("Coffee".data, ["starbucks".data])]

/-- The same keyword rule written in upper case. -/
def kwC3up : List (Str × List Str) := [("Coffee".data, ["STARBUCKS".data])]

/-- A row whose official name contains the keyword up to letter case. -/
def rowC3 : MRecord := ⟨⟨1, "S".data, "Starbucks".data, 0, none, none⟩, none, none, none⟩

/-- A reporting window for the merge fixtures. -/
def spC4 : MSpec := ⟨0, 100⟩

/-- First tie row (datetime 5) of the stability fixture. -/
def recC4a : Record := ⟨5, "A".data, "x".data, 1, none, none⟩

/-- Second tie row (datetime 5), in a later source table. -/
def recC4b : Record := ⟨5, "B".data, "y".data, 2, none, none⟩

/-- An earlier row (datetime 3) listed after `recC4a` in its table. -/
def recC4c : Record := ⟨3, "A".data, "z".data, 3, none, none⟩

/-- A WF-Checking row whose description regex-matches the GEHC salary
pattern (the `.` wildcard absorbs the `X`) without containing any of the
fixed substrings literally. -/
def recC5 : Record :=
  ⟨0, "WF Checking".data, "GE HEALTHCARE TE REGXSALARY".data, 0, none, none⟩

/-- A reporting window for the idempotence fixtures. -/
def spC7 : MSpec := ⟨0, 10⟩

/-- A later row (datetime 2) placed first in the unsorted table. -/
def recC7a : Record := ⟨2, "A".data, "x".data, 0, none, none⟩

/-- An earlier row (datetime 1) placed second in the unsorted table. -/
def recC7b : Record := ⟨1, "A".data, "y".data, 0, none, none⟩

/-- A relative path whose tag segment is the ignore sentinel but whose year
segment is not an integer. -/
def pathC10 : List Str := ["20x4".data, "IGNORE".data, "f.csv".data]

/-! # Claim theorems -/

/-- Claim C9: `Merger.merge` called with an empty list of transaction-file
tables does not return an empty merged table: `pd.concat` of zero tables
raises `ValueError: No objects to concatenate`, so merge raises whenever
every source file was skipped or none was found. -/
theorem merge_empty_raises (sp : MSpec) :
    merge sp [] = Except.error "No objects to concatenate" := rfl

/-- Claim C6: the window filtering step of `Merger.merge` is inclusive on
both bounds — a record is retained exactly when
`window_start <= datetime <= window_end`, so a record exactly at either
bound is kept and one strictly outside either bound is excluded. -/
theorem windowFilter_inclusive (sp : MSpec) (l : List Record) (r : Record) :
    r ∈ windowFilter sp l ↔
      r ∈ l ∧ sp.dateStart ≤ r.datetime ∧ r.datetime ≤ sp.dateEnd := by
  simp [windowFilter, inWindowB, List.mem_filter, and_assoc]

/-- Claim C10: `TransactionFileDescriptor` construction parses the year
segment before checking the ignore sentinel: on a path with at least two
leading directories whose tag segment is `"IGNORE"` but whose first segment
does not parse as an integer, construction raises `ValueError`; the skip
signal is raised only when the shape is valid and the year parses. -/
theorem tfdInit_year_before_ignore (relpath : List Str) :
    (2 ≤ relpath.dropLast.length → relpath.getD 1 [] = "IGNORE".data →
      pyInt (relpath.getD 0 []) = none →
      tfdInit relpath = Except.error TfdSignal.valueError)
    ∧ (tfdInit relpath = Except.error TfdSignal.ignoreFile →
      2 ≤ relpath.dropLast.length ∧ (∃ y, pyInt (relpath.getD 0 []) = some y)
        ∧ relpath.getD 1 [] = "IGNORE".data) := by
  constructor
  · intro h1 h2 h3
    simp only [tfdInit]
    rw [if_neg (Nat.not_lt.mpr h1), h3]
  · intro h
    simp only [tfdInit] at h
    split at h
    · simp at h
    · rename_i hlen
      split at h
      · simp at h
      · rename_i y hy
        split at h
        · rename_i hig
          exact ⟨Nat.not_lt.mp hlen, ⟨y, hy⟩, hig⟩
        · simp at h

/-- Witness for Claim C10 at a concrete path: `"20x4/IGNORE/f.csv"` raises
`ValueError`, not the skip signal. -/
theorem tfdInit_year_before_ignore_w :
    tfdInit pathC10 = Except.error TfdSignal.valueError :=
  (tfdInit_year_before_ignore pathC10).1 (by decide) (by decide) (by decide)

/-- The literal substring test agrees with list-infix containment. -/
theorem substrB_iff (needle : Str) : ∀ hay, substrB needle hay = true ↔ needle <:+: hay := by
  intro hay
  induction hay with
  | nil => simp [substrB, List.isEmpty_iff, List.infix_nil]
  | cons c t ih =>
    simp only [substrB, Bool.or_eq_true, ih, List.isPrefixOf_iff_prefix]
    rw [List.infix_cons_iff]

/-- The boolean character step of `patAt` agrees with `CharMatch`. -/
theorem charMatchB_iff (p c : Char) :
    (if p = '.' then decide (c ≠ '\n') else decide (p = c)) = true ↔ CharMatch p c := by
  by_cases h : p = '.' <;> simp [CharMatch, h]

/-- `patAt` matches exactly the prefixes described by `CharMatch`. -/
theorem patAt_iff : ∀ (pat s : Str),
    patAt pat s = true ↔ ∃ mid suf, s = mid ++ suf ∧ List.Forall₂ CharMatch pat mid
  | [], s => by
    simp only [patAt, true_iff]
    exact ⟨[], s, rfl, List.Forall₂.nil⟩
  | p :: ps, [] => by
    simp only [patAt]
    constructor
    · intro h
      exact absurd h (by simp)
    · rintro ⟨mid, suf, h1, h2⟩
      cases h2 with
      | cons hm hms => simp at h1
  | p :: ps, c :: cs => by
    simp only [patAt, Bool.and_eq_true]
    constructor
    · rintro ⟨hc, hrest⟩
      obtain ⟨mid, suf, h1, h2⟩ := (patAt_iff ps cs).mp hrest
      exact ⟨c :: mid, suf, by simp [h1], List.Forall₂.cons ((charMatchB_iff p c).mp hc) h2⟩
    · rintro ⟨mid, suf, h1, h2⟩
      cases h2 with
      | cons hm hms =>
        rename_i m ms
        rw [List.cons_append] at h1
        have hcm : c = m ∧ cs = ms ++ suf := by
          constructor <;> injection h1
        refine ⟨(charMatchB_iff p c).mpr (hcm.1 ▸ hm), ?_⟩
        exact (patAt_iff ps cs).mpr ⟨ms, suf, hcm.2, hms⟩

/-- `patSearch` finds exactly the occurrences described by `PatOccurs`. -/
theorem patSearch_iff : ∀ (pat t : Str), patSearch pat t = true ↔ PatOccurs pat t
  | pat, [] => by
    simp only [patSearch, PatOccurs]
    constructor
    · intro h
      have hp : pat = [] := List.isEmpty_iff.mp h
      subst hp
      exact ⟨[], [], [], rfl, List.Forall₂.nil⟩
    · rintro ⟨pre, mid, suf, h1, h2⟩
      obtain ⟨h3, h4⟩ := List.append_eq_nil.mp h1.symm
      obtain ⟨h5, h6⟩ := List.append_eq_nil.mp h3
      subst h6
      rw [List.forall₂_nil_right_iff.mp h2]
      rfl
  | pat, c :: cs => by
    simp only [patSearch, Bool.or_eq_true, patAt_iff, patSearch_iff pat cs, PatOccurs]
    constructor
    · rintro (⟨mid, suf, h1, h2⟩ | ⟨pre, mid, suf, h1, h2⟩)
      · exact ⟨[], mid, suf, by simp [h1], h2⟩
      · exact ⟨c :: pre, mid, suf, by simp [h1], h2⟩
    · rintro ⟨pre, mid, suf, h1, h2⟩
      cases pre with
      | nil => exact Or.inl ⟨mid, suf, by simpa using h1, h2⟩
      | cons d pre =>
        refine Or.inr ⟨pre, mid, suf, ?_, h2⟩
        rw [List.cons_append, List.cons_append] at h1
        injection h1

/-- For a pattern with no `.`, `CharMatch` forces character equality. -/
theorem forall₂_charMatch_of_no_dot : ∀ (pat mid : Str), '.' ∉ pat →
    (List.Forall₂ CharMatch pat mid ↔ pat = mid)
  | [], mid, _ => by simp [List.forall₂_nil_left_iff, eq_comm]
  | p :: ps, [], _ => by simp [List.forall₂_nil_right_iff]
  | p :: ps, m :: ms, h => by
    have hp : p ≠ '.' := fun e => h (e ▸ List.mem_cons_self p ps)
    rw [List.forall₂_cons,
      forall₂_charMatch_of_no_dot ps ms (fun hm => h (List.mem_cons_of_mem p hm))]
    simp [CharMatch, hp]

/-- For a pattern with no `.`, regex search is literal substring containment. -/
theorem patSearch_no_dot_iff (pat t : Str) (h : '.' ∉ pat) :
    patSearch pat t = true ↔ pat <:+: t := by
  rw [patSearch_iff]
  constructor
  · rintro ⟨pre, mid, suf, h1, h2⟩
    rw [forall₂_charMatch_of_no_dot pat mid h] at h2
    subst h2
    exact ⟨pre, suf, h1.symm⟩
  · rintro ⟨pre, suf, h1⟩
    exact ⟨pre, pat, suf, h1.symm, (forall₂_charMatch_of_no_dot pat pat h).mpr rfl⟩

/-- Claim C5 counterexample: the WF-Checking row with description
`"GE HEALTHCARE TE REGXSALARY"` matches none of the fixed substrings
literally — the claim says it survives — yet `_consolidate_redundant`
drops it, because `str.contains` interprets the `.` in the pattern as a
regex wildcard. -/
theorem consolidateRedundant_counter :
    specDropCond recC5 = false ∧ consolidateRedundant [recC5] = [] := by decide

/-- Claim C5 (amended): a record is dropped by the redundancy-elimination
step iff its Source contains `"WF Checking"` and its description matches
one of the payroll patterns with `.` read as a regex wildcard (any
character but a newline), or contains `"VENMO PAYMENT"` literally; every
other record survives. -/
theorem consolidateRedundant_mem_iff (l : List Record) (r : Record) :
    r ∈ consolidateRedundant l ↔
      r ∈ l ∧ ¬ (wfCheckingPat <:+: r.source ∧
        (PatOccurs gePat r.officialName ∨ PatOccurs gehcPat r.officialName ∨
          venmoPat <:+: r.officialName)) := by
  rw [consolidateRedundant, List.mem_filter]
  refine and_congr_right fun _ => ?_
  have hred : redundantB r = true ↔
      (wfCheckingPat <:+: r.source ∧
        (PatOccurs gePat r.officialName ∨ PatOccurs gehcPat r.officialName ∨
          venmoPat <:+: r.officialName)) := by
    simp only [redundantB, Bool.and_eq_true, Bool.or_eq_true,
      patSearch_iff gePat r.officialName, patSearch_iff gehcPat r.officialName,
      patSearch_no_dot_iff wfCheckingPat r.source (by decide),
      patSearch_no_dot_iff venmoPat r.officialName (by decide), or_assoc]
  rw [Bool.not_eq_true']
  rw [Bool.eq_false_iff]
  exact not_congr hred

/-- A fold that overwrites an optional accumulator whenever a condition
holds factors through the same fold started from `none`. -/
theorem foldl_overwrite {α γ : Type} (cond : α → Bool) (val : α → γ) :
    ∀ (l : List α) (a : Option γ),
      l.foldl (fun acc x => if cond x then some (val x) else acc) a
        = (l.foldl (fun acc x => if cond x then some (val x) else acc) none).or a
  | [], a => rfl
  | x :: l, a => by
    simp only [List.foldl_cons]
    rw [foldl_overwrite cond val l (if cond x = true then some (val x) else a),
      foldl_overwrite cond val l (if cond x = true then some (val x) else none)]
    by_cases h : cond x = true <;>
      cases hfold : l.foldl (fun acc x => if cond x then some (val x) else acc) none <;>
        simp [h, hfold]

/-- The inner keyword loop (one category, its keyword list) acts on each
row independently: a row is marked with the category iff some keyword of
the list occurs in its upper-cased Official Name. -/
theorem kwInner (cat : Str) (kws : List Str) :
    ∀ (rs : List MRecord),
      kws.foldl (fun rs kw => rs.map (fun r =>
          if substrB kw (upperStr r.record.officialName) then { r with category := some cat }
          else r)) rs
        = rs.map (fun r =>
            if kws.any (fun kw => substrB kw (upperStr r.record.officialName)) then
              { r with category := some cat }
            else r) := by
  induction kws with
  | nil => intro rs; simp
  | cons kw kws ih =>
    intro rs
    rw [List.foldl_cons, ih, List.map_map]
    apply List.map_congr_left
    intro r _
    by_cases h : substrB kw (upperStr r.record.officialName) = true <;>
      simp [Function.comp, h]

/-- The keyword pass acts on each row independently: it rewrites the
category to that of the last keyword rule whose keyword occurs verbatim in
the upper-cased Official Name, leaving every other field (and unmatched
rows) unchanged. -/
theorem keywordPass_char (rules : List (Str × List Str)) :
    ∀ (rs : List MRecord),
      keywordPass rules rs = rs.map (fun r =>
        { r with category :=
            (lastKeywordCat rules r.record.officialName).or r.category }) := by
  induction rules with
  | nil => intro rs; simp [keywordPass, lastKeywordCat, Option.none_or]
  | cons p ps ih =>
    intro rs
    have hstep : keywordPass (p :: ps) rs
        = keywordPass ps (rs.map (fun r =>
            if p.2.any (fun kw => substrB kw (upperStr r.record.officialName)) then
              { r with category := some p.1 }
            else r)) := by
      rw [keywordPass, List.foldl_cons, ← kwInner p.1 p.2 rs]
      rfl
    rw [hstep, ih, List.map_map]
    apply List.map_congr_left
    intro r _
    have hlast : lastKeywordCat (p :: ps) r.record.officialName
        = (lastKeywordCat ps r.record.officialName).or
            (if p.2.any (fun kw => substrB kw (upperStr r.record.officialName)) then some p.1
              else none) := by
      simp only [lastKeywordCat, List.foldl_cons]
      rw [foldl_overwrite (fun q => q.2.any (fun kw => substrB kw (upperStr r.record.officialName)))
        (fun q => q.1) ps]
    by_cases h : p.2.any (fun kw => substrB kw (upperStr r.record.officialName)) = true <;>
      cases hps : lastKeywordCat ps r.record.officialName <;>
        simp [Function.comp, h, hlast, hps, Option.none_or]

/-- Claim C3 counterexample: official name `"Starbucks"` contains the
keyword `"starbucks"` case-insensitively, but the keyword pass with that
lower-case keyword rule marks nothing: only the official name is
upper-cased, never the keyword. -/
theorem keywordPass_case_counter :
    specCaseFoldContains "starbucks".data rowC3.record.officialName = true ∧
      keywordPass kwC3low [rowC3] = [rowC3] ∧ rowC3.category = none := by decide

/-- Claim C3 (amended): keyword matching upper-cases only the official
name — the keyword pass marks a record with a rule's category exactly when
the keyword, as written in the rule, occurs in the upper-cased
`official_name` (the category of the last such matching rule wins, other
rows and fields are untouched).  Matching is therefore case-insensitive in
the official name's letter case only; a keyword written in lower case can
only match if it appears verbatim in the upper-cased name. -/
theorem keywordPass_upper_only (rules : List (Str × List Str)) (rs : List MRecord) :
    keywordPass rules rs = rs.map (fun r =>
      { r with category :=
          (lastKeywordCat rules r.record.officialName).or r.category }) :=
  keywordPass_char rules rs

/-- The inner exact-match loop (one category, its string list) acts on each
row independently: a row is marked with the category iff its Official Name
equals some string of the list. -/
theorem exInner (cat : Str) (ss : List Str) :
    ∀ (rs : List MRecord),
      ss.foldl (fun rs s => rs.map (fun r =>
          if r.record.officialName = s then { r with category := some cat } else r)) rs
        = rs.map (fun r =>
            if ss.any (fun s => decide (r.record.officialName = s)) then
              { r with category := some cat }
            else r) := by
  induction ss with
  | nil => intro rs; simp
  | cons s ss ih =>
    intro rs
    rw [List.foldl_cons, ih, List.map_map]
    apply List.map_congr_left
    intro r _
    by_cases h : r.record.officialName = s <;> simp [Function.comp, h]

/-- The exact-match pass acts on each row independently: it rewrites the
category to that of the last exact rule one of whose strings equals the
Official Name, leaving every other field (and unmatched rows) unchanged. -/
theorem exactPass_char (rules : List (Str × List Str)) :
    ∀ (rs : List MRecord),
      exactPass rules rs = rs.map (fun r =>
        { r with category :=
            (lastExactCat rules r.record.officialName).or r.category }) := by
  induction rules with
  | nil => intro rs; simp [exactPass, lastExactCat, Option.none_or]
  | cons p ps ih =>
    intro rs
    have hstep : exactPass (p :: ps) rs
        = exactPass ps (rs.map (fun r =>
            if p.2.any (fun s => decide (r.record.officialName = s)) then
              { r with category := some p.1 }
            else r)) := by
      rw [exactPass, List.foldl_cons, ← exInner p.1 p.2 rs]
      rfl
    rw [hstep, ih, List.map_map]
    apply List.map_congr_left
    intro r _
    have hlast : lastExactCat (p :: ps) r.record.officialName
        = (lastExactCat ps r.record.officialName).or
            (if p.2.any (fun s => decide (r.record.officialName = s)) then some p.1
              else none) := by
      simp only [lastExactCat, List.foldl_cons]
      rw [foldl_overwrite (fun q => q.2.any (fun s => decide (r.record.officialName = s)))
        (fun q => q.1) ps]
    by_cases h : p.2.any (fun s => decide (r.record.officialName = s)) = true <;>
      cases hps : lastExactCat ps r.record.officialName <;>
        simp [Function.comp, h, hlast, hps, Option.none_or]

/-- Claim C2: a record whose official name matches both a keyword rule
(category `A`) and an exact-match rule (category `B`, with `B` the category
the exact pass resolves to, i.e. of the last matching exact rule) ends with
category `B` after `Categorizer.categorize`: the exact-match pass runs
entirely after the keyword pass and overrides any keyword result. -/
theorem exactMatch_overrides_keyword (c : Categorization) (rs out : List MRecord)
    (i : Nat) (A kw B : Str)
    (hok : categorize c rs = Except.ok out) (hi : i < rs.length) (hio : i < out.length)
    (hkwRule : ∃ kws, (A, kws) ∈ c.keywordCategorizers ∧ kw ∈ kws)
    (hkwMatch : substrB kw (upperStr rs[i].record.officialName) = true)
    (hex : lastExactCat c.exactCategorizers rs[i].record.officialName = some B) :
    out[i].category = some B := by
  have hout : mapTaxonomy c.categorySupers c.categoryGroups
      (exactPass c.exactCategorizers (keywordPass c.keywordCategorizers rs)) = out := by
    simp only [categorize] at hok
    split at hok
    · exact absurd hok (by simp)
    · split at hok
      · exact absurd hok (by simp)
      · simp only [Except.ok.injEq] at hok
        exact hok
  have hgo : out[i]? = some out[i] := List.getElem?_eq_getElem hio
  conv at hgo => lhs; rw [← hout, exactPass_char, keywordPass_char]
  simp only [mapTaxonomy, List.map_map, List.getElem?_map,
    List.getElem?_eq_getElem hi, Option.map_some'] at hgo
  have hout_i := Option.some.inj hgo
  rw [← hout_i]
  simp [Function.comp, hex]

/-- Witness for Claim C2: with a keyword rule `Coffee ↦ ["STARB"]` and an
exact rule `Dining ↦ ["Starbucks #123"]`, the record named
`"Starbucks #123"` ends categorized `Dining`. -/
theorem exactMatch_overrides_keyword_w :
    (outC2.get ⟨0, by decide⟩).category = some "Dining".data :=
  exactMatch_overrides_keyword catC2 [rowC2] outC2 0 "Coffee".data "STARB".data "Dining".data
    (by decide) (by decide) (by decide) ⟨["STARB".data], by decide, by decide⟩
    (by decide) (by decide)

/-- Null-coincidence of two optional cells, as the boolean XOR of the
`isna` masks sees it. -/
theorem bne_isNone_false_iff (x y : Option Str) :
    ¬ ((x.isNone != y.isNone) = true) ↔ (x = none ↔ y = none) := by
  cases x <;> cases y <;> simp

/-- Claim C1: when `Categorizer.categorize` returns, every record's
category is null iff its supercategory is null, iff its group is null; and
whenever deriving supercategory/group from the taxonomy maps would break
this coincidence for some record, `categorize` raises `AssertionError`
instead of returning. -/
theorem categorize_null_coincidence (c : Categorization) (rs : List MRecord) :
    (∀ out, categorize c rs = Except.ok out →
      ∀ r ∈ out, (r.category = none ↔ r.supercategory = none)
        ∧ (r.category = none ↔ r.group = none))
    ∧ ((∃ r ∈ mapTaxonomy c.categorySupers c.categoryGroups
          (exactPass c.exactCategorizers (keywordPass c.keywordCategorizers rs)),
        ¬ ((r.category = none ↔ r.supercategory = none)
          ∧ (r.category = none ↔ r.group = none))) →
      ∃ e, categorize c rs = Except.error e) := by
  constructor
  · intro out hok r hr
    simp only [categorize] at hok
    split at hok
    · exact absurd hok (by simp)
    · split at hok
      · exact absurd hok (by simp)
      · rename_i hA hB
        have hout : mapTaxonomy c.categorySupers c.categoryGroups
            (exactPass c.exactCategorizers (keywordPass c.keywordCategorizers rs)) = out := by
          simpa using hok
        rw [← hout] at hr
        rw [List.any_eq_true] at hA hB
        push_neg at hA hB
        exact ⟨(bne_isNone_false_iff r.category r.supercategory).mp (hA r hr),
          (bne_isNone_false_iff r.category r.group).mp (hB r hr)⟩
  · rintro ⟨r, hr, hbad⟩
    by_cases hA : (mapTaxonomy c.categorySupers c.categoryGroups
        (exactPass c.exactCategorizers (keywordPass c.keywordCategorizers rs))).any
          (fun r => r.category.isNone != r.supercategory.isNone) = true
    · refine ⟨"One of the provided categorizers is using an invalid Category label; offending entries are above", ?_⟩
      simp only [categorize]
      rw [if_pos hA]
    · have hB : (mapTaxonomy c.categorySupers c.categoryGroups
          (exactPass c.exactCategorizers (keywordPass c.keywordCategorizers rs))).any
            (fun r => r.category.isNone != r.group.isNone) = true := by
        rw [List.any_eq_true]
        refine ⟨r, hr, ?_⟩
        rw [List.any_eq_true] at hA
        push_neg at hA
        have h1 := (bne_isNone_false_iff r.category r.supercategory).mp (hA r hr)
        have h2 : ¬ (r.category = none ↔ r.group = none) := fun h => hbad ⟨h1, h⟩
        by_contra hno
        exact h2 ((bne_isNone_false_iff r.category r.group).mp hno)
      refine ⟨"One of the provided categorizers is using an invalid Category label", ?_⟩
      simp only [categorize]
      rw [if_neg hA, if_pos hB]

/-- Witness for Claim C1: a consistent taxonomy yields a fully coincident
row, and the same rules over an empty taxonomy make `categorize` raise. -/
theorem categorize_null_coincidence_w :
    ((outC1.category = none ↔ outC1.supercategory = none)
      ∧ (outC1.category = none ↔ outC1.group = none))
    ∧ (∃ e, categorize catC1bad [rowC1] = Except.error e) := by
  constructor
  · exact (categorize_null_coincidence catC1 [rowC1]).1 [outC1] (by decide) outC1 (by decide)
  · exact (categorize_null_coincidence catC1bad [rowC1]).2 ⟨outC1bad, by decide, by decide⟩

/-- Inserting a row of datetime `d` puts it in front of the `d`-tie class;
inserting any other row leaves the `d`-tie class untouched. -/
theorem insertDt_filter (r : Record) (l : List Record) (d : Int) :
    (insertDt r l).filter (fun x => decide (x.datetime = d))
      = if r.datetime = d then r :: l.filter (fun x => decide (x.datetime = d))
        else l.filter (fun x => decide (x.datetime = d)) := by
  induction l with
  | nil => by_cases h : r.datetime = d <;> simp [insertDt, List.filter_cons, h]
  | cons x xs ih =>
    simp only [insertDt]
    by_cases hle : r.datetime ≤ x.datetime
    · rw [if_pos hle]
      by_cases h : r.datetime = d <;> simp [List.filter_cons, h]
    · rw [if_neg hle]
      by_cases h : r.datetime = d
      · have hxd : ¬ (x.datetime = d) := by omega
        simp [List.filter_cons, ih, h, hxd]
      · simp [List.filter_cons, ih, h]

/-- Stability of the merge sort: the subsequence of rows carrying any fixed
datetime is exactly the same, in the same order, before and after sorting. -/
theorem sortDt_filter (l : List Record) (d : Int) :
    (sortDt l).filter (fun x => decide (x.datetime = d))
      = l.filter (fun x => decide (x.datetime = d)) := by
  induction l with
  | nil => rfl
  | cons x xs ih =>
    simp only [sortDt]
    rw [insertDt_filter, ih, List.filter_cons]
    by_cases h : x.datetime = d <;> simp [h]

/-- Sorting an already `Datetime`-sorted table is the identity. -/
theorem sortDt_sorted_id : ∀ (l : List Record), isSortedDt l = true → sortDt l = l
  | [], _ => rfl
  | [x], _ => rfl
  | x :: y :: t, h => by
    simp only [isSortedDt, Bool.and_eq_true, decide_eq_true_eq] at h
    have ht := sortDt_sorted_id (y :: t) h.2
    simp only [sortDt] at ht ⊢
    rw [ht]
    simp [insertDt, h.1]

/-- Two successive filters commute. -/
theorem filter_swap {α : Type} (p q : α → Bool) (l : List α) :
    (l.filter p).filter q = (l.filter q).filter p := by
  simp only [List.filter_filter]
  exact List.filter_congr (fun a _ => by rw [Bool.and_comm])

/-- Claim C4: `Merger.merge` sorts the concatenation of its input tables
with a stable sort — within any class of records sharing one datetime, the
merged output lists exactly the surviving records of that class in their
input-concatenation order, regardless of source table. -/
theorem merge_stable_ties (sp : MSpec) (tbls : List (List Record)) (out : List MRecord)
    (d : Int) (hok : merge sp tbls = Except.ok out) :
    (out.map MRecord.record).filter (fun r => decide (r.datetime = d))
      = (tbls.flatten.filter (fun r => ! redundantB r && inWindowB sp r)).filter
          (fun r => decide (r.datetime = d)) := by
  have hout : (windowFilter sp (consolidateRedundant (sortDt tbls.flatten))).map toMRecord
      = out := by
    simp only [merge] at hok
    split at hok
    · exact absurd hok (by simp)
    · simp only [Except.ok.injEq] at hok
      exact hok
  rw [← hout, List.map_map]
  rw [show MRecord.record ∘ toMRecord = id from rfl, List.map_id]
  rw [windowFilter, consolidateRedundant]
  conv_lhs =>
    rw [filter_swap (inWindowB sp) (fun r => decide (r.datetime = d)),
      filter_swap (fun r => ! redundantB r) (fun r => decide (r.datetime = d)),
      sortDt_filter]
  conv_rhs =>
    rw [← List.filter_filter,
      filter_swap (fun r => ! redundantB r) (fun r => decide (r.datetime = d)),
      filter_swap (inWindowB sp) (fun r => decide (r.datetime = d)),
      filter_swap (inWindowB sp) (fun r => ! redundantB r)]

/-- Witness for Claim C4: two datetime-5 records from different source
tables keep their concatenation order through `merge`. -/
theorem merge_stable_ties_w :
    (([toMRecord recC4c, toMRecord recC4a, toMRecord recC4b].map MRecord.record).filter
        (fun r => decide (r.datetime = 5)))
      = (([[recC4a, recC4c], [recC4b]].flatten.filter
          (fun r => ! redundantB r && inWindowB spC4 r)).filter
            (fun r => decide (r.datetime = 5))) :=
  merge_stable_ties spC4 [[recC4a, recC4c], [recC4b]]
    [toMRecord recC4c, toMRecord recC4a, toMRecord recC4b] 5 (by decide)

/-- Claim C7 counterexample: a single table both of whose rows are inside
the window and match no redundancy rule, but which is not sorted by
datetime — `merge` reorders it, so the output is not the table unchanged
(plus null categorization columns) as the claim states. -/
theorem merge_idempotent_counter :
    merge spC7 [[recC7a, recC7b]] ≠ Except.ok ([recC7a, recC7b].map toMRecord)
      ∧ [recC7a, recC7b].all (inWindowB spC7) = true
      ∧ [recC7a, recC7b].all (fun r => ! redundantB r) = true := by decide

/-- Claim C7 (amended): for a single table that is *sorted by datetime*,
whose records all lie inside `[window_start, window_end]`, and none of
which matches a redundancy rule, `merge` returns the table unchanged aside
from appending the three categorization columns initialized to null. -/
theorem merge_idempotent_sorted (sp : MSpec) (t : List Record)
    (hsort : isSortedDt t = true)
    (hwin : t.all (inWindowB sp) = true)
    (hred : t.all (fun r => ! redundantB r) = true) :
    merge sp [t] = Except.ok (t.map toMRecord) := by
  simp only [merge, List.isEmpty_cons, Bool.false_eq_true, if_false]
  rw [show ([t] : List (List Record)).flatten = t by simp]
  rw [sortDt_sorted_id t hsort]
  rw [consolidateRedundant, List.filter_eq_self.mpr (List.all_eq_true.mp hred)]
  rw [windowFilter, List.filter_eq_self.mpr (List.all_eq_true.mp hwin)]

/-- Witness for Claim C7 (amended) at a concrete sorted two-row table. -/
theorem merge_idempotent_sorted_w :
    merge spC7 [[recC7b, recC7a]] = Except.ok ([recC7b, recC7a].map toMRecord) :=
  merge_idempotent_sorted spC7 [recC7b, recC7a] (by decide) (by decide) (by decide)

